import Mathlib

/-!
Verification of the column-data model and expression-resolution engine of
Plot.py (PlotData): the `readfile` stream reader and the `gety` resolver.

The embedding is a shallow model of the Python source, executed under a
Python 3 interpreter (the behaviour of the relevant constructs was checked
against CPython 3.11):

* floats are modelled as exact rationals plus distinguished inf/nan values
  (`PyFloat`); IEEE rounding is irrelevant to the claims, which only use
  small decimal literals;
* the input stream is modelled at line granularity: `readfile` only ever
  calls `tell`/`seek` at line boundaries (it records `npos = fp.tell()`
  immediately before each `readline`), so a position is an index into the
  list of lines of the stream;
* `shlex.split` (posix mode, whitespace_split) is modelled as the character
  state machine of the CPython implementation;
* `gety` is modelled with the Python-3 `exec` scoping semantics: the final
  `exec('y = ' + a_string, locals(), globals())` passes the function-local
  snapshot as the globals parameter and the module dictionary as the locals
  parameter, so the assignment `y = ...` writes the module-level name `y`
  and can never rebind the function-local variable `y` that the following
  `return y` reads; that read therefore raises UnboundLocalError whenever
  the fast path missed.
-/

namespace PlotData

attribute [local semireducible] Rat.add Rat.sub Rat.mul Rat.inv

/-- Python exceptions that the modelled code can raise. -/
inductive PyErr where
  | nameError (n : String)
  | valueError (m : String)
  | synErr (m : String)
  | unboundLocal (n : String)
  | indexError
deriving DecidableEq, Repr

instance {ε α : Type} [DecidableEq ε] [DecidableEq α] : DecidableEq (Except ε α) := fun x y =>
  match x, y with
  | .error a, .error b => decidable_of_iff (a = b) (by simp)
  | .error _, .ok _ => isFalse (by simp)
  | .ok _, .error _ => isFalse (by simp)
  | .ok a, .ok b => decidable_of_iff (a = b) (by simp)

def noClosingQuotation : String := "No closing quotation"

def noEscapedCharacter : String := "No escaped character"

def broadcastMsg : String := "operands could not be broadcast together"

/-- Model of a Python float value: an exact rational, an infinity, or nan.
Values such as `1.0` or `3.5e2` are represented exactly. -/
inductive PyFloat where
  | finite (q : ℚ)
  | inf (neg : Bool)
  | nan
deriving DecidableEq, Repr

instance : Inhabited PyFloat := ⟨.finite 0⟩

/-- Whitespace recognised by Python `str.strip` / `str.split`
(ASCII subset; the inputs of interest contain no other whitespace). -/
def pySpace (c : Char) : Bool :=
  c = ' ' || c = '\t' || c = '\n' || c = '\r' || c = Char.ofNat 11 || c = Char.ofNat 12

/-- `str.strip()` on a character list. -/
def listStrip (cs : List Char) : List Char :=
  ((cs.dropWhile pySpace).reverse.dropWhile pySpace).reverse

/-- `str.strip()`. -/
def stripPy (s : String) : String := ⟨listStrip s.data⟩

/-- `str.split()` (no separator: split on whitespace runs, no empty tokens). -/
def wsSplit : List Char → List Char → List (List Char)
  | [], cur => if cur = [] then [] else [cur.reverse]
  | c :: rest, cur =>
    if pySpace c then
      if cur = [] then wsSplit rest [] else cur.reverse :: wsSplit rest []
    else wsSplit rest (c :: cur)

def pySplitWs (s : String) : List String :=
  (wsSplit s.data []).map fun cs => ⟨cs⟩

def digitsToNat (cs : List Char) : ℕ :=
  cs.foldl (fun n c => n * 10 + (c.toNat - 48)) 0

/-- Split a character list at the first character satisfying `p`;
returns the part before it and, when found, the part after it. -/
def breakAt (p : Char → Bool) : List Char → List Char × Option (List Char)
  | [] => ([], none)
  | c :: rest =>
    if p c then ([], some rest)
    else
      let r := breakAt p rest
      (c :: r.1, r.2)

/-- Mantissa of a Python float literal: `digits`, `digits.digits`,
`digits.` or `.digits` (at least one digit overall). -/
def parseMant (cs : List Char) : Option ℚ :=
  let r := breakAt (fun c => c = '.') cs
  match r.2 with
  | none =>
    if r.1 ≠ [] ∧ r.1.all Char.isDigit then some (digitsToNat r.1 : ℚ) else none
  | some b =>
    if (r.1 ++ b) ≠ [] ∧ (r.1 ++ b).all Char.isDigit then
      some ((digitsToNat r.1 : ℚ) + (digitsToNat b : ℚ) / (10 : ℚ) ^ b.length)
    else none

/-- Exponent part of a float literal (after `e`/`E`): optional sign, digits. -/
def parseExpo (cs : List Char) : Option ℤ :=
  match cs with
  | '+' :: ds => if ds ≠ [] ∧ ds.all Char.isDigit then some (digitsToNat ds : ℤ) else none
  | '-' :: ds => if ds ≠ [] ∧ ds.all Char.isDigit then some (-(digitsToNat ds : ℤ)) else none
  | ds => if ds ≠ [] ∧ ds.all Char.isDigit then some (digitsToNat ds : ℤ) else none

def infChars : List Char := ['i', 'n', 'f']

def infinityChars : List Char := ['i', 'n', 'f', 'i', 'n', 'i', 't', 'y']

def nanChars : List Char := ['n', 'a', 'n']

/-- Unsigned body of `float(s)` after the optional sign. -/
def pyFloatCore (cs : List Char) (neg : Bool) : Option PyFloat :=
  let low := cs.map Char.toLower
  if low = infChars ∨ low = infinityChars then some (.inf neg)
  else if low = nanChars then some .nan
  else
    let r := breakAt (fun c => c = 'e' || c = 'E') cs
    match parseMant r.1 with
    | none => none
    | some q =>
      let signed : ℚ := if neg then -q else q
      match r.2 with
      | none => some (.finite signed)
      | some ecs =>
        match parseExpo ecs with
        | none => none
        | some k => some (.finite (signed * (10 : ℚ) ^ k))

/-- Model of Python `float(s)`: surrounding whitespace is tolerated, then an
optional sign and either a decimal literal with optional exponent or one of
inf/infinity/nan (case-insensitive).  Digit-group underscores (a 3.6+
extension) are not modelled; no token of interest contains them. -/
def pyFloat (s : String) : Option PyFloat :=
  match listStrip s.data with
  | '+' :: rest => pyFloatCore rest false
  | '-' :: rest => pyFloatCore rest true
  | rest => pyFloatCore rest false

/-- Classification of one input line by the reader loop: blank after
stripping, a data row (all whitespace-separated tokens parse as floats),
or anything else. -/
inductive LineKind where
  | blank
  | row (fs : List PyFloat)
  | other
deriving DecidableEq, Repr

/-- `[float(s) for s in line.split()]`, as an `Option` (`none` = ValueError). -/
def pyParseRow (l : String) : Option (List PyFloat) :=
  (pySplitWs l).mapM pyFloat

def lineKind (line : String) : LineKind :=
  let l := stripPy line
  if l = ⟨[]⟩ then .blank
  else
    match pyParseRow l with
    | some fs => .row fs
    | none => .other

def LineKind.isRow : LineKind → Bool
  | .row _ => true
  | _ => false

/-- The value carried by a row line (`[]` for non-row lines). -/
def rowOf (line : String) : List PyFloat :=
  match lineKind line with
  | .row fs => fs
  | _ => []

/-- Raw result of the reading loop of `readfile`: the recorded rows, the
recorded (stripped) comment lines, and the final stream position (an index
into the list of lines: everything before it has been consumed). -/
structure RawOut where
  rows : List (List PyFloat)
  comments : List String
  pos : ℕ
deriving DecidableEq, Repr

/-- The `while line:` loop of `readfile`.  `pos` is the index of the line
about to be processed (the `npos = fp.tell()` recorded just before the
`readline` that produced it).  A blank line stops reading and stays
consumed; a non-numeric line is recorded as a comment while no row has been
seen, and otherwise stops reading with `fp.seek(npos)`, leaving the final
position just before that line. -/
def readLoop : List String → ℕ → List (List PyFloat) → List String → RawOut
  | [], pos, rows, comments => ⟨rows, comments, pos⟩
  | line :: rest, pos, rows, comments =>
    match lineKind line with
    | .blank => ⟨rows, comments, pos + 1⟩
    | .row fs => readLoop rest (pos + 1) (rows ++ [fs]) comments
    | .other =>
      if rows = [] then readLoop rest (pos + 1) rows (comments ++ [stripPy line])
      else ⟨rows, comments, pos⟩

def readRaw (lines : List String) : RawOut := readLoop lines 0 [] []

/-- `list(map(list, zip(*rows)))`: transpose truncating to the shortest row
(Python `zip` stops when any iterator is exhausted); `zip()` of no rows is
empty. -/
def pyTranspose (rows : List (List PyFloat)) : List (List PyFloat) :=
  match rows with
  | [] => []
  | r0 :: _ =>
    let w := (rows.map List.length).foldr min r0.length
    (List.range w).map fun i => rows.map fun r => r.getD i default

/-- Whitespace recognised by `shlex` when splitting tokens. -/
def shWs (c : Char) : Bool :=
  c = ' ' || c = '\t' || c = '\r' || c = '\n'

def squoteChar : Char := Char.ofNat 39

/-- States of the `shlex` posix state machine: between/inside a word,
inside a single or double quote, or just after a backslash (from word
context or double-quote context). -/
inductive SState where
  | word
  | squote
  | dquote
  | escW
  | escD
deriving DecidableEq, Repr

/-- Character state machine of `shlex.split(s)` in posix mode with
whitespace_split; `cur` is the current token (reversed), `started` records
whether a token is in progress (so that quoted empty tokens are emitted),
and a dangling quote or escape raises ValueError. -/
def shlexLoop : List Char → SState → List Char → Bool → List String →
    Except PyErr (List String)
  | [], st, cur, started, acc =>
    match st with
    | .word => .ok (acc ++ if started then [⟨cur.reverse⟩] else [])
    | .squote => .error (.valueError noClosingQuotation)
    | .dquote => .error (.valueError noClosingQuotation)
    | .escW => .error (.valueError noEscapedCharacter)
    | .escD => .error (.valueError noEscapedCharacter)
  | c :: rest, st, cur, started, acc =>
    match st with
    | .word =>
      if shWs c then
        if started then shlexLoop rest .word [] false (acc ++ [⟨cur.reverse⟩])
        else shlexLoop rest .word [] false acc
      else if c = squoteChar then shlexLoop rest .squote cur true acc
      else if c = '"' then shlexLoop rest .dquote cur true acc
      else if c = '\\' then shlexLoop rest .escW cur true acc
      else shlexLoop rest .word (c :: cur) true acc
    | .squote =>
      if c = squoteChar then shlexLoop rest .word cur started acc
      else shlexLoop rest .squote (c :: cur) started acc
    | .dquote =>
      if c = '"' then shlexLoop rest .word cur started acc
      else if c = '\\' then shlexLoop rest .escD cur started acc
      else shlexLoop rest .dquote (c :: cur) started acc
    | .escW => shlexLoop rest .word (c :: cur) started acc
    | .escD =>
      if c = '"' ∨ c = '\\' then shlexLoop rest .dquote (c :: cur) started acc
      else shlexLoop rest .dquote (c :: '\\' :: cur) started acc

def shlexSplit (s : String) : Except PyErr (List String) :=
  shlexLoop s.data .word [] false []

def labelsWord : List Char := ['l', 'a', 'b', 'e', 'l', 's']

/-- Lines 99-103 of the source: take the last comment, strip a leading `#`
(one character, then whitespace), then — after merely testing for the
six-character prefix `labels` — strip a single character and whitespace,
and tokenize with `shlex.split`.  The single-character drop after the
`labels` test is exactly what `s = s[1:].strip()` does in the source. -/
def labelsOf (comments : List String) : Except PyErr (List String) :=
  match comments.getLast? with
  | none => .ok []
  | some c =>
    let s0 := if c.data.take 1 = ['#'] then stripPy ⟨c.data.drop 1⟩ else c
    let s1 := if s0.data.take 6 = labelsWord then stripPy ⟨s0.data.drop 1⟩ else s0
    shlexSplit s1

/-- Result of `readfile`: columns, comments, labels, final stream position. -/
structure ReadOut where
  cols : List (List PyFloat)
  comments : List String
  labels : List String
  pos : ℕ
deriving DecidableEq, Repr

/-- `readfile(fp)`.  The only uncaught exception path is the ValueError that
`shlex.split` can raise while computing labels (line 103 of the source is
outside every `try`). -/
def readfile (lines : List String) : Except PyErr ReadOut :=
  match labelsOf (readRaw lines).comments with
  | .error e => .error e
  | .ok labels =>
    .ok ⟨pyTranspose (readRaw lines).rows, (readRaw lines).comments, labels, (readRaw lines).pos⟩

/-- Line 165 of the source, `nrows = len(cols[0])`: indexing an empty
column list raises IndexError. -/
def nrows (cols : List (List PyFloat)) : Except PyErr ℕ :=
  match cols with
  | [] => .error .indexError
  | c :: _ => .ok c.length

/-!
The expression engine of `gety`.  Expressions are the arithmetic fragment
actually exercised by the symbol table: identifiers, decimal literals,
unary minus, `+ - * / **` and parentheses, over numpy-array values
(elementwise operations with scalar broadcasting).  Attribute access and
function calls into the numeric namespaces are outside the modelled
fragment; values are exact rationals, so the IEEE special cases of `/` and
fractional `**` are replaced by total rational operations (no expression in
the claims exercises them).
-/

def isIdentStart (c : Char) : Bool := c.isAlpha || c = '_'

def isIdentChar (c : Char) : Bool := c.isAlphanum || c = '_'

inductive Tok where
  | num (q : ℚ)
  | ident (x : String)
  | plus
  | minus
  | star
  | slash
  | dstar
  | lparen
  | rparen
deriving DecidableEq, Repr

def lexMsg : String := "invalid syntax"

def spanDigits (cs : List Char) : List Char × List Char :=
  (cs.takeWhile Char.isDigit, cs.dropWhile Char.isDigit)

/-- Lex one numeric literal: `digits [. digits] [(e|E) [sign] digits]`. -/
def lexNum (cs : List Char) : Option (ℚ × List Char) :=
  let ip := spanDigits cs
  let fp : List Char × List Char :=
    match ip.2 with
    | '.' :: rr => spanDigits rr
    | _ => ([], ip.2)
  if ip.1 = [] ∧ fp.1 = [] then none
  else
    let q : ℚ := (digitsToNat ip.1 : ℚ) + (digitsToNat fp.1 : ℚ) / (10 : ℚ) ^ fp.1.length
    match fp.2 with
    | 'e' :: rr =>
      match rr with
      | '+' :: ds =>
        let ex := spanDigits ds
        if ex.1 = [] then none else some (q * (10 : ℚ) ^ (digitsToNat ex.1 : ℤ), ex.2)
      | '-' :: ds =>
        let ex := spanDigits ds
        if ex.1 = [] then none else some (q * (10 : ℚ) ^ (-(digitsToNat ex.1 : ℤ)), ex.2)
      | ds =>
        let ex := spanDigits ds
        if ex.1 = [] then none else some (q * (10 : ℚ) ^ (digitsToNat ex.1 : ℤ), ex.2)
    | 'E' :: rr =>
      match rr with
      | '+' :: ds =>
        let ex := spanDigits ds
        if ex.1 = [] then none else some (q * (10 : ℚ) ^ (digitsToNat ex.1 : ℤ), ex.2)
      | '-' :: ds =>
        let ex := spanDigits ds
        if ex.1 = [] then none else some (q * (10 : ℚ) ^ (-(digitsToNat ex.1 : ℤ)), ex.2)
      | ds =>
        let ex := spanDigits ds
        if ex.1 = [] then none else some (q * (10 : ℚ) ^ (digitsToNat ex.1 : ℤ), ex.2)
    | _ => some (q, fp.2)

def headIsDigit (cs : List Char) : Bool :=
  match cs with
  | d :: _ => d.isDigit
  | [] => false

def lexAux : ℕ → List Char → Except PyErr (List Tok)
  | 0, _ => .error (.synErr lexMsg)
  | _, [] => .ok []
  | fuel + 1, c :: rest =>
    if pySpace c then lexAux fuel rest
    else if c = '(' then do
      let ts ← lexAux fuel rest
      .ok (.lparen :: ts)
    else if c = ')' then do
      let ts ← lexAux fuel rest
      .ok (.rparen :: ts)
    else if c = '+' then do
      let ts ← lexAux fuel rest
      .ok (.plus :: ts)
    else if c = '-' then do
      let ts ← lexAux fuel rest
      .ok (.minus :: ts)
    else if c = '/' then do
      let ts ← lexAux fuel rest
      .ok (.slash :: ts)
    else if c = '*' then
      match rest with
      | '*' :: r2 => do
        let ts ← lexAux fuel r2
        .ok (.dstar :: ts)
      | _ => do
        let ts ← lexAux fuel rest
        .ok (.star :: ts)
    else if isIdentStart c then do
      let ts ← lexAux fuel ((c :: rest).dropWhile isIdentChar)
      .ok (.ident ⟨(c :: rest).takeWhile isIdentChar⟩ :: ts)
    else if c.isDigit || (c = '.' && headIsDigit rest) then
      match lexNum (c :: rest) with
      | none => .error (.synErr lexMsg)
      | some qr => do
        let ts ← lexAux fuel qr.2
        .ok (.num qr.1 :: ts)
    else .error (.synErr lexMsg)

def lexExpr (s : String) : Except PyErr (List Tok) :=
  lexAux (s.data.length + 1) s.data

inductive BinOp where
  | add
  | sub
  | mul
  | div
  | pow
deriving DecidableEq, Repr

inductive Expr where
  | num (q : ℚ)
  | var (x : String)
  | neg (e : Expr)
  | bin (op : BinOp) (a b : Expr)
deriving DecidableEq, Repr

/-- Parsing modes of the recursive-descent parser (one fuel-indexed
function instead of a mutual block): atom, power, unary, multiplicative
chain, additive chain; the `C` modes carry the left operand of a chain. -/
inductive PMode where
  | atom
  | pw
  | unary
  | term
  | termC (acc : Expr)
  | arith
  | arithC (acc : Expr)

def parseM : ℕ → PMode → List Tok → Except PyErr (Expr × List Tok)
  | 0, _, _ => .error (.synErr lexMsg)
  | fuel + 1, m, toks =>
    match m with
    | .atom =>
      match toks with
      | .num q :: r => .ok (.num q, r)
      | .ident x :: r => .ok (.var x, r)
      | .lparen :: r => do
        let er ← parseM fuel .arith r
        match er.2 with
        | .rparen :: r3 => .ok (er.1, r3)
        | _ => .error (.synErr lexMsg)
      | _ => .error (.synErr lexMsg)
    | .pw => do
      let ar ← parseM fuel .atom toks
      match ar.2 with
      | .dstar :: r2 => do
        let br ← parseM fuel .unary r2
        .ok (.bin .pow ar.1 br.1, br.2)
      | _ => .ok ar
    | .unary =>
      match toks with
      | .minus :: r => do
        let er ← parseM fuel .unary r
        .ok (.neg er.1, er.2)
      | _ => parseM fuel .pw toks
    | .term => do
      let ar ← parseM fuel .unary toks
      parseM fuel (.termC ar.1) ar.2
    | .termC a =>
      match toks with
      | .star :: r => do
        let br ← parseM fuel .unary r
        parseM fuel (.termC (.bin .mul a br.1)) br.2
      | .slash :: r => do
        let br ← parseM fuel .unary r
        parseM fuel (.termC (.bin .div a br.1)) br.2
      | _ => .ok (a, toks)
    | .arith => do
      let ar ← parseM fuel .term toks
      parseM fuel (.arithC ar.1) ar.2
    | .arithC a =>
      match toks with
      | .plus :: r => do
        let br ← parseM fuel .term r
        parseM fuel (.arithC (.bin .add a br.1)) br.2
      | .minus :: r => do
        let br ← parseM fuel .term r
        parseM fuel (.arithC (.bin .sub a br.1)) br.2
      | _ => .ok (a, toks)

/-- Compile `a_string` (the `exec` compilation step): lex, parse, require
all tokens consumed. -/
def parseExpr (s : String) : Except PyErr Expr := do
  let toks ← lexExpr s
  let er ← parseM ((toks.length + 1) * 8) .arith toks
  match er.2 with
  | [] => .ok er.1
  | _ => .error (.synErr lexMsg)

/-- A value in the evaluation environment: a numpy scalar or 1-d array,
with exact rational entries. -/
inductive Val where
  | scalar (q : ℚ)
  | arr (xs : List ℚ)
deriving DecidableEq, Repr

/-- Scalar semantics of the operators.  Rational division is total
(numpy division by zero warns instead of raising); `**` is modelled for
integer exponents only. -/
def applyOp (op : BinOp) (a b : ℚ) : ℚ :=
  match op with
  | .add => a + b
  | .sub => a - b
  | .mul => a * b
  | .div => a / b
  | .pow => if b.den = 1 then a ^ b.num else 0

def negV : Val → Val
  | .scalar q => .scalar (-q)
  | .arr xs => .arr (xs.map fun x => -x)

/-- Elementwise application with numpy broadcasting: scalars broadcast
against arrays; arrays must have equal lengths or the operation raises the
broadcast ValueError. -/
def evalBin (op : BinOp) : Val → Val → Except PyErr Val
  | .scalar a, .scalar b => .ok (.scalar (applyOp op a b))
  | .scalar a, .arr ys => .ok (.arr (ys.map fun y => applyOp op a y))
  | .arr xs, .scalar b => .ok (.arr (xs.map fun x => applyOp op x b))
  | .arr xs, .arr ys =>
    if xs.length = ys.length then .ok (.arr (List.zipWith (applyOp op) xs ys))
    else .error (.valueError broadcastMsg)

def Env := String → Option Val

/-- Evaluation of a compiled expression; a name missing from the
environment raises NameError on first use (left to right), exactly as the
final `exec` of `gety` does. -/
def evalE (env : Env) : Expr → Except PyErr Val
  | .num q => .ok (.scalar q)
  | .var x =>
    match env x with
    | some v => .ok v
    | none => .error (.nameError x)
  | .neg e => do
    let v ← evalE env e
    .ok (negV v)
  | .bin op a b => do
    let va ← evalE env a
    let vb ← evalE env b
    evalBin op va vb

def pyKeywords : List String :=
  [r"False", r"None", r"True", r"and", r"as", r"assert", r"async", r"await",
   r"break", r"class", r"continue", r"def", r"del", r"elif", r"else",
   r"except", r"finally", r"for", r"from", r"global", r"if", r"import",
   r"in", r"is", r"lambda", r"nonlocal", r"not", r"or", r"pass", r"raise",
   r"return", r"try", r"while", r"with", r"yield"]

/-- Whether `exec(key + '= np.array(val)')` succeeds for this key: the key
must be a legal identifier (and not a keyword); otherwise the statement
fails to compile, the bare `except` swallows the error and the symbol is
silently skipped. -/
def isPyIdent (s : String) : Bool :=
  match s.data with
  | [] => false
  | c :: rest => isIdentStart c && rest.all isIdentChar && !(pyKeywords.contains s)

/-- The symbol table handed to `gety`: the `a_dict` built at module level,
mapping names to columns (plain Python lists of floats, modelled with
rational entries). -/
abbrev Table := List (String × List ℚ)

/-- The module-global dictionary, as far as `gety` reads and writes it:
an association list from names to values (first match wins, which is
lookup-equivalent to a Python dict under updates). -/
abbrev GEnv := List (String × Val)

def lookupS : List (String × α) → String → Option α
  | [], _ => none
  | (k, v) :: rest, x => if k = x then some v else lookupS rest x

/-- The best-effort binding loop of `gety`: every key that is a legal
identifier is bound to `np.array(val)`; other keys are silently skipped. -/
def bindSyms (t : Table) : List (String × Val) :=
  (t.filter fun kv => isPyIdent kv.1).map fun kv => (kv.1, Val.arr kv.2)

/-- Name resolution inside `exec('y = ' + a_string, locals(), globals())`:
LOAD_NAME searches the locals parameter first — which is the module
globals dictionary — and then the globals parameter, the function-local
snapshot holding the arrays bound by the loop. -/
def envOf (g : GEnv) (t : Table) : Env := fun x =>
  match lookupS g x with
  | some v => some v
  | none => lookupS (bindSyms t) x

def yName : String := "y"

/-- Dict update, lookup-equivalent form. -/
def gset (g : GEnv) (k : String) (v : Val) : GEnv := (k, v) :: g

/-- `gety(a_string, a_dict)` under a Python 3 interpreter, with the module
globals threaded explicitly.  Fast path: an exact key returns the stored
column object unevaluated.  General path: the expression is compiled and
evaluated; a compile or evaluation error propagates uncaught; when the
evaluation succeeds, the `exec` stores the result into the module-global
`y` (the globals() dictionary was passed as the locals parameter), the
function-local `y` stays unbound, and the subsequent `return y` raises
UnboundLocalError. -/
def gety (a_string : String) (a_dict : Table) (g : GEnv) :
    Except PyErr (List ℚ) × GEnv :=
  match lookupS a_dict a_string with
  | some y => (.ok y, g)
  | none =>
    match parseExpr a_string with
    | .error e => (.error e, g)
    | .ok ast =>
      match evalE (envOf g a_dict) ast with
      | .error e => (.error e, g)
      | .ok v => (.error (.unboundLocal yName), gset g yName v)


/-!
Shape analysis of the evaluator, used to show that re-resolving the same
expression against the same table gives the same outcome even though the
evaluation writes the module-global `y`: success of `evalE` depends only on
the shapes (scalar / array length) of the environment values, and all array
shapes met during a successful evaluation agree.
-/

abbrev Shape := Option ℕ

def shOf : Val → Shape
  | .scalar _ => none
  | .arr xs => some xs.length

def sCompat : Shape → Shape → Bool
  | none, _ => true
  | some _, none => true
  | some m, some n => m = n

def sJoin : Shape → Shape → Shape
  | none, b => b
  | some l, _ => some l

/-- Shape refinement: a scalar refines anything, otherwise shapes must
agree. -/
def sLe (a b : Shape) : Prop := a = none ∨ a = b

abbrev SEnv := String → Option Shape

/-- Shape-level abstract interpretation of `evalE`. -/
def evalSh (σ : SEnv) : Expr → Except PyErr Shape
  | .num _ => .ok none
  | .var x =>
    match σ x with
    | some s => .ok s
    | none => .error (.nameError x)
  | .neg e => evalSh σ e
  | .bin _ a b => do
    let sa ← evalSh σ a
    let sb ← evalSh σ b
    if sCompat sa sb then .ok (sJoin sa sb) else .error (.valueError broadcastMsg)

def varsE : Expr → List String
  | .num _ => []
  | .var x => [x]
  | .neg e => varsE e
  | .bin _ a b => varsE a ++ varsE b

def shadow (σ : SEnv) (k : String) (s : Shape) : SEnv :=
  fun x => if k = x then some s else σ x

def envSh (env : Env) : SEnv := fun x => (env x).map shOf

/-!
Concrete sample inputs used in the claim theorems and witnesses.
-/

def tblC1 : Table := [(r"column0", [1, 2, 3]), (r"column1", [4, 5, 6])]

def exprC1 : String := "column1 - column0"

def keyC8 : String := "column0"

def undefName : String := "undefined_name"

def exprC4 : String := "undefined_name * 2"

def tblC9 : Table := [(r"column0", [1, 2, 3])]

def exprC9 : String := "column0 * 2"

def labelsLine : String := "labels a b"

def rowLineB : String := "1.0 2.0"

def termLineB : String := "not a number"

def lastLineB : String := "3.0 4.0"

def labelLineA : String := "x y"

def rowLineA1 : String := "1.0 2.0"

def rowLineA2 : String := "3.0 4.0"

def unbalancedLine : String := "\"abc"

def commentOnlyLine : String := "a"

/-!
Lemmas about the reading loop.
-/

theorem readLoop_cons_comment (line : String) (rest : List String) (pos : ℕ)
    (comments : List String) (h : lineKind line = LineKind.other) :
    readLoop (line :: rest) pos [] comments =
      readLoop rest (pos + 1) [] (comments ++ [stripPy line]) := by
  simp [readLoop, h]

theorem readLoop_cons_row (line : String) (rest : List String) (pos : ℕ)
    (rows : List (List PyFloat)) (comments : List String) (fs : List PyFloat)
    (h : lineKind line = LineKind.row fs) :
    readLoop (line :: rest) pos rows comments =
      readLoop rest (pos + 1) (rows ++ [fs]) comments := by
  simp [readLoop, h]

theorem readLoop_comments (cs : List String) (rest : List String) (pos : ℕ)
    (comments : List String) (h : ∀ c ∈ cs, lineKind c = LineKind.other) :
    readLoop (cs ++ rest) pos [] comments =
      readLoop rest (pos + cs.length) [] (comments ++ cs.map stripPy) := by
  induction cs generalizing pos comments with
  | nil => simp
  | cons c cs ih =>
    rw [List.cons_append, readLoop_cons_comment c (cs ++ rest) pos comments (h c (by simp)),
      ih (pos + 1) (comments ++ [stripPy c]) (fun x hx => h x (by simp [hx]))]
    simp only [List.length_cons, List.map_cons, List.append_assoc, List.singleton_append]
    congr 1
    omega

theorem readLoop_rows (rs : List String) (rest : List String) (pos : ℕ)
    (rows : List (List PyFloat)) (comments : List String)
    (h : ∀ r ∈ rs, (lineKind r).isRow = true) :
    readLoop (rs ++ rest) pos rows comments =
      readLoop rest (pos + rs.length) (rows ++ rs.map rowOf) comments := by
  induction rs generalizing pos rows with
  | nil => simp
  | cons r rs ih =>
    have hr := h r (by simp)
    cases hk : lineKind r with
    | blank => rw [hk] at hr; simp [LineKind.isRow] at hr
    | other => rw [hk] at hr; simp [LineKind.isRow] at hr
    | row fs =>
      rw [List.cons_append, readLoop_cons_row r (rs ++ rest) pos rows comments fs hk,
        ih (pos + 1) (rows ++ [fs]) (fun x hx => h x (by simp [hx]))]
      simp only [List.length_cons, List.map_cons, List.append_assoc, List.singleton_append,
        rowOf, hk]
      congr 1
      omega

theorem readLoop_stop (term : String) (rest : List String) (pos : ℕ)
    (rows : List (List PyFloat)) (comments : List String)
    (ht : lineKind term = LineKind.other) (hrows : rows ≠ []) :
    readLoop (term :: rest) pos rows comments = ⟨rows, comments, pos⟩ := by
  simp [readLoop, ht, hrows]

theorem readLoop_all_other (lines : List String) (pos : ℕ) (comments : List String)
    (h : ∀ l ∈ lines, lineKind l = LineKind.other) :
    (readLoop lines pos [] comments).rows = [] := by
  induction lines generalizing pos comments with
  | nil => rfl
  | cons l ls ih =>
    rw [readLoop_cons_comment l ls pos comments (h l (by simp))]
    exact ih (pos + 1) (comments ++ [stripPy l]) (fun x hx => h x (by simp [hx]))

theorem pyTranspose_length (rows : List (List PyFloat)) (c : List PyFloat)
    (hc : c ∈ pyTranspose rows) : c.length = rows.length := by
  cases rows with
  | nil => simp [pyTranspose] at hc
  | cons r0 rs =>
    simp only [pyTranspose, List.mem_map, List.mem_range] at hc
    obtain ⟨i, _, rfl⟩ := hc
    simp

theorem readfile_ok_cols (lines : List String) (out : ReadOut)
    (hout : readfile lines = .ok out) :
    out.cols = pyTranspose ((readRaw lines).rows) := by
  unfold readfile at hout
  cases h : labelsOf ((readRaw lines).comments) with
  | error e2 => rw [h] at hout; simp at hout
  | ok ls =>
    rw [h] at hout
    simp only [Except.ok.injEq] at hout
    rw [← hout]

/-- C2: once at least one row has been recorded, a non-numeric non-blank
line terminates reading and the final stream position is just before that
line, so the terminator line and everything after it are left unread for
any subsequent consumer; in particular reading never consumes more than
one line past the contiguous numeric block (and the seek un-reads the one
line it did look at). -/
theorem c2_terminator_rewind (cs rs : List String) (term : String) (rest : List String)
    (hc : ∀ c ∈ cs, lineKind c = LineKind.other)
    (hr : ∀ r ∈ rs, (lineKind r).isRow = true)
    (hne : rs ≠ [])
    (ht : lineKind term = LineKind.other) :
    (readRaw (cs ++ (rs ++ term :: rest))).pos = cs.length + rs.length ∧
      (cs ++ (rs ++ term :: rest)).drop ((readRaw (cs ++ (rs ++ term :: rest))).pos) =
        term :: rest := by
  have hterm : readRaw (cs ++ (rs ++ term :: rest)) =
      ⟨rs.map rowOf, cs.map stripPy, cs.length + rs.length⟩ := by
    unfold readRaw
    rw [readLoop_comments cs (rs ++ term :: rest) 0 [] hc,
      readLoop_rows rs (term :: rest) (0 + cs.length) [] (([] : List String) ++ cs.map stripPy) hr,
      readLoop_stop term rest (0 + cs.length + rs.length) (([] : List (List PyFloat)) ++ rs.map rowOf)
        (([] : List String) ++ cs.map stripPy) ht (by simpa using hne)]
    simp
  refine ⟨by rw [hterm], ?_⟩
  rw [hterm]
  show (cs ++ (rs ++ term :: rest)).drop (cs.length + rs.length) = term :: rest
  rw [← List.append_assoc]
  have hlen : cs.length + rs.length = (cs ++ rs).length := (List.length_append cs rs).symm
  rw [hlen, List.drop_left]

/-- C2 witness: scenario B.  The stream `"1.0 2.0\nnot a number\n3.0 4.0\n"`
stops after the first row with position 1, leaving
`"not a number\n3.0 4.0\n"` unread. -/
theorem c2_witness :
    (readRaw [rowLineB, termLineB, lastLineB]).pos = 1 ∧
      [rowLineB, termLineB, lastLineB].drop ((readRaw [rowLineB, termLineB, lastLineB]).pos) =
        [termLineB, lastLineB] := by
  have h := c2_terminator_rewind [] [rowLineB] termLineB [lastLineB]
    (by simp) (by decide) (by simp) (by decide)
  simpa using h

/-- C5: scenario A.  Reading `"x y\n1.0 2.0\n3.0 4.0\n"` yields columns
`[[1.0, 3.0], [2.0, 4.0]]`, comments `["x y"]` and labels `["x", "y"]`
(and consumes all three lines). -/
theorem c5_basic_read :
    readfile [labelLineA, rowLineA1, rowLineA2] =
      .ok ⟨[[.finite 1, .finite 3], [.finite 2, .finite 4]],
        [labelLineA], [r"x", r"y"], 3⟩ := by
  decide

/-- C6 counterexample: `read` can raise.  A stream whose last comment line
contains an unbalanced quote makes line 103 of the source
(`labels = shlex.split(s)`, outside every `try`) raise
`ValueError("No closing quotation")`, which escapes `readfile`. -/
theorem c6_counterexample :
    readfile [unbalancedLine] = .error (.valueError noClosingQuotation) := by
  decide

/-- C6 amended: an empty stream yields empty comments, columns and labels;
the only exception that can escape `read` is the ValueError raised while
shell-tokenizing the last comment line into labels; and a stream of only
comment lines yields empty columns whenever `read` returns. -/
theorem c6_amended (lines : List String) :
    readfile [] = .ok ⟨[], [], [], 0⟩ ∧
      (∀ e, readfile lines = .error e →
        labelsOf ((readRaw lines).comments) = .error e) ∧
      ((∀ l ∈ lines, lineKind l = LineKind.other) →
        ∀ out, readfile lines = .ok out → out.cols = []) := by
  refine ⟨by decide, ?_, ?_⟩
  · intro e he
    unfold readfile at he
    cases h : labelsOf ((readRaw lines).comments) with
    | error e2 =>
      rw [h] at he
      cases he
      rfl
    | ok ls => rw [h] at he; simp at he
  · intro hall out hout
    have hcols := readfile_ok_cols lines out hout
    have hrows : (readRaw lines).rows = [] := readLoop_all_other lines 0 [] hall
    rw [hcols, hrows]
    rfl

/-- C6 witness: the comment-only stream `["a"]` returns with empty
columns. -/
theorem c6_witness : (ReadOut.mk [] [commentOnlyLine] [commentOnlyLine] 1).cols = [] := by
  exact (c6_amended [commentOnlyLine]).2.2 (by decide)
    (ReadOut.mk [] [commentOnlyLine] [commentOnlyLine] 1) (by decide)

/-- C7: every column returned by `read` has length equal to the number of
rows read — even for ragged rows, because the `zip(*rows)` transpose
truncates to the shortest row while each produced column has one entry per
row. -/
theorem c7_column_lengths (lines : List String) (out : ReadOut)
    (hout : readfile lines = .ok out) (c : List PyFloat) (hc : c ∈ out.cols) :
    c.length = (readRaw lines).rows.length := by
  rw [readfile_ok_cols lines out hout] at hc
  exact pyTranspose_length _ _ hc

/-- C7 witness: for the stream `["1.0 2.0", "3.0 4.0"]` the first returned
column has length 2 = number of rows read. -/
theorem c7_witness :
    ([PyFloat.finite 1, PyFloat.finite 3] : List PyFloat).length =
      (readRaw [rowLineA1, rowLineA2]).rows.length := by
  exact c7_column_lengths [rowLineA1, rowLineA2]
    (ReadOut.mk [[.finite 1, .finite 3], [.finite 2, .finite 4]] [] [] 2)
    (by decide) [PyFloat.finite 1, PyFloat.finite 3] (by decide)

/-- C10 counterexample: with zero rows the collaborator line
`nrows = len(cols[0])` raises exactly the out-of-range IndexError — there
is no distinct degenerate-case check and no dedicated message, contrary to
the claim. -/
theorem c10_counterexample : nrows [] = .error .indexError := rfl

/-- C10 amended: when zero rows are read the reader returns empty columns,
and the collaborator row-count computation `len(cols[0])` then fails with
an out-of-range IndexError (not a distinct degenerate-case check with a
clear message). -/
theorem c10_amended (lines : List String) (h : (readRaw lines).rows = []) :
    pyTranspose ((readRaw lines).rows) = [] ∧
      nrows (pyTranspose ((readRaw lines).rows)) = .error .indexError := by
  rw [h]
  exact ⟨rfl, rfl⟩

/-- C10 witness: the empty stream reads zero rows; the transpose is empty
and the row-count computation raises IndexError. -/
theorem c10_witness :
    pyTranspose ((readRaw []).rows) = [] ∧
      nrows (pyTranspose ((readRaw []).rows)) = .error .indexError := by
  exact c10_amended [] (by decide)

/-!
Claim theorems about the expression resolver.
-/

/-- C8: the fast path.  When the expression is exactly an existing key of
the symbol table, `gety` returns that column object directly — no parsing,
no evaluation, no change to the global environment. -/
theorem c8_fast_path (t : Table) (e : String) (g : GEnv) (c : List ℚ)
    (h : lookupS t e = some c) : gety e t g = (.ok c, g) := by
  unfold gety
  rw [h]

/-- C8 witness: resolving the exact key `"column0"` returns the stored
column `[1, 2, 3]` unchanged, with the globals untouched. -/
theorem c8_witness : gety keyC8 tblC1 [] = (.ok [1, 2, 3], []) := by
  exact c8_fast_path tblC1 keyC8 [] [1, 2, 3] (by decide)

/-- C1 code-bug evidence: resolving `"column1 - column0"` against
`{column0: [1,2,3], column1: [4,5,6]}` under Python 3 does NOT return
`[3,3,3]`.  The `exec` computes `[3,3,3]` — it lands in the module-global
`y`, as the second component shows — but `return y` reads the never-bound
function-local `y` and raises UnboundLocalError.  (Only under Python 2,
where `exec` can rebind function locals, would the call return
`[3,3,3]`.) -/
theorem c1_code_bug :
    gety exprC1 tblC1 [] =
      (.error (.unboundLocal yName), [(yName, Val.arr [3, 3, 3])]) := by
  decide

/-- C3 code-bug evidence: for a last comment `"labels a b"` the source
tests for the prefix `labels` but then strips a single character
(`s = s[1:].strip()`), producing `["abels", "a", "b"]` instead of the
claimed `["a", "b"]`. -/
theorem c3_labels_code_bug :
    labelsOf [labelsLine] = .ok [r"abels", r"a", r"b"] ∧
      labelsOf [labelsLine] ≠ .ok [r"a", r"b"] := by
  decide

/-- C4 counterexample: resolving `"undefined_name * 2"` propagates a
NameError that names only the undefined symbol `undefined_name`; no
exception carrying the offending expression text `"undefined_name * 2"`
exists (there is no ExpressionError wrapper in the code). -/
theorem c4_counterexample :
    (gety exprC4 tblC1 []).1 = .error (.nameError undefName) ∧
      undefName ≠ exprC4 := by
  decide

/-- C4 amended: when the fast path misses and compiling or evaluating the
expression fails, `gety` propagates that exact exception to the caller —
unchanged, not retried, not recovered, and not wrapped with the expression
text. -/
theorem c4_error_propagation (e : String) (t : Table) (g : GEnv) (err : PyErr)
    (hmiss : lookupS t e = none)
    (hfail : parseExpr e = .error err ∨
      ∃ ast, parseExpr e = .ok ast ∧ evalE (envOf g t) ast = .error err) :
    (gety e t g).1 = .error err := by
  unfold gety
  rcases hfail with hp | ⟨ast, hp, he⟩
  · simp [hmiss, hp]
  · simp [hmiss, hp, he]

/-- C4 witness: the amended propagation at the concrete scenario E input. -/
theorem c4_witness : (gety exprC4 tblC1 []).1 = .error (.nameError undefName) := by
  exact c4_error_propagation exprC4 tblC1 [] (.nameError undefName) (by decide)
    (.inr ⟨.bin .mul (.var undefName) (.num 2), by decide, by decide⟩)

/-- C9 counterexample: resolution does have hidden mutable state — the
successful evaluation of `"column0 * 2"` writes the module-global `y`
(here: `y = [2, 4, 6]`), so the global environment after the call differs
from the one before it. -/
theorem c9_counterexample :
    (gety exprC9 tblC9 []).2 = [(yName, Val.arr [2, 4, 6])] ∧
      (gety exprC9 tblC9 []).2 ≠ ([] : GEnv) := by
  decide

/-!
Shape lemmas for the idempotence of `gety`.
-/

theorem bindOk {α β : Type} (a : α) (f : α → Except PyErr β) :
    (Except.ok a >>= f) = f a := rfl

theorem bindErr {α β : Type} (e : PyErr) (f : α → Except PyErr β) :
    ((Except.error e : Except PyErr α) >>= f) = Except.error e := rfl

theorem shOf_negV (v : Val) : shOf (negV v) = shOf v := by
  cases v <;> simp [negV, shOf]

theorem evalBin_ok_shape (op : BinOp) (v1 v2 v : Val) (h : evalBin op v1 v2 = .ok v) :
    sCompat (shOf v1) (shOf v2) = true ∧ shOf v = sJoin (shOf v1) (shOf v2) := by
  cases v1 with
  | scalar a =>
    cases v2 with
    | scalar b =>
      simp only [evalBin, Except.ok.injEq] at h
      subst h
      simp [shOf, sCompat, sJoin]
    | arr ys =>
      simp only [evalBin, Except.ok.injEq] at h
      subst h
      simp [shOf, sCompat, sJoin]
  | arr xs =>
    cases v2 with
    | scalar b =>
      simp only [evalBin, Except.ok.injEq] at h
      subst h
      simp [shOf, sCompat, sJoin]
    | arr ys =>
      simp only [evalBin] at h
      by_cases hlen : xs.length = ys.length
      · rw [if_pos hlen] at h
        simp only [Except.ok.injEq] at h
        subst h
        refine ⟨by simp [sCompat, shOf, hlen], ?_⟩
        simp [shOf, sJoin, List.length_zipWith, hlen]
      · rw [if_neg hlen] at h
        simp at h

theorem evalBin_ok_of_compat (op : BinOp) (v1 v2 : Val)
    (h : sCompat (shOf v1) (shOf v2) = true) : ∃ v, evalBin op v1 v2 = .ok v := by
  cases v1 with
  | scalar a =>
    cases v2 with
    | scalar b => exact ⟨_, rfl⟩
    | arr ys => exact ⟨_, rfl⟩
  | arr xs =>
    cases v2 with
    | scalar b => exact ⟨_, rfl⟩
    | arr ys =>
      simp only [shOf, sCompat, decide_eq_true_eq] at h
      exact ⟨.arr (List.zipWith (applyOp op) xs ys), by simp [evalBin, h]⟩

/-- Soundness of the shape interpretation: a successful evaluation has a
successful shape evaluation at the shape of its value. -/
theorem evalE_shape (env : Env) (e : Expr) (v : Val) (h : evalE env e = .ok v) :
    evalSh (envSh env) e = .ok (shOf v) := by
  induction e generalizing v with
  | num q =>
    simp only [evalE, Except.ok.injEq] at h
    subst h
    rfl
  | var x =>
    simp only [evalE] at h
    cases hx : env x with
    | none => rw [hx] at h; simp at h
    | some vx =>
      rw [hx] at h
      simp at h
      subst h
      simp [evalSh, envSh, hx]
  | neg e ih =>
    simp only [evalE] at h
    cases he : evalE env e with
    | error ee => rw [he] at h; simp [bindErr] at h
    | ok w =>
      rw [he] at h
      simp [bindOk] at h
      subst h
      simpa [evalSh, shOf_negV] using ih w he
  | bin op a b iha ihb =>
    simp only [evalE] at h
    cases ha : evalE env a with
    | error ea => rw [ha] at h; simp [bindErr] at h
    | ok va =>
      cases hb : evalE env b with
      | error eb => rw [ha, hb] at h; simp [bindOk, bindErr] at h
      | ok vb =>
        rw [ha, hb] at h
        simp only [bindOk] at h
        obtain ⟨hcomp, hshape⟩ := evalBin_ok_shape op va vb v h
        simp [evalSh, iha va ha, ihb vb hb, bindOk, hcomp, hshape]

/-- Completeness of the shape interpretation: a successful shape
evaluation guarantees a successful evaluation, with matching shape. -/
theorem evalSh_eval (env : Env) (e : Expr) (s : Shape)
    (h : evalSh (envSh env) e = .ok s) : ∃ v, evalE env e = .ok v ∧ shOf v = s := by
  induction e generalizing s with
  | num q =>
    simp only [evalSh, Except.ok.injEq] at h
    subst h
    exact ⟨.scalar q, rfl, rfl⟩
  | var x =>
    simp only [evalSh] at h
    cases hx : envSh env x with
    | none => rw [hx] at h; simp at h
    | some sx =>
      rw [hx] at h
      simp at h
      subst h
      simp only [envSh, Option.map_eq_some'] at hx
      obtain ⟨vx, hvx, hsh⟩ := hx
      exact ⟨vx, by simp [evalE, hvx], hsh⟩
  | neg e ih =>
    simp only [evalSh] at h
    obtain ⟨v, hv, hsh⟩ := ih s h
    exact ⟨negV v, by simp [evalE, hv, bindOk], by rw [shOf_negV, hsh]⟩
  | bin op a b iha ihb =>
    simp only [evalSh] at h
    cases ha : evalSh (envSh env) a with
    | error ea => rw [ha] at h; simp [bindErr] at h
    | ok sa =>
      cases hb : evalSh (envSh env) b with
      | error eb => rw [ha, hb] at h; simp [bindOk, bindErr] at h
      | ok sb =>
        rw [ha, hb] at h
        simp only [bindOk] at h
        by_cases hcomp : sCompat sa sb = true
        · rw [if_pos hcomp] at h
          simp only [Except.ok.injEq] at h
          obtain ⟨va, hva, hsa⟩ := iha sa ha
          obtain ⟨vb, hvb, hsb⟩ := ihb sb hb
          obtain ⟨v, hv⟩ := evalBin_ok_of_compat op va vb (by rw [hsa, hsb]; exact hcomp)
          refine ⟨v, by simp [evalE, hva, hvb, bindOk, hv], ?_⟩
          rw [(evalBin_ok_shape op va vb v hv).2, hsa, hsb, h]
        · rw [if_neg hcomp] at h
          simp at h

theorem sLe_refl (a : Shape) : sLe a a := .inr rfl

theorem sLe_trans {a b c : Shape} (h1 : sLe a b) (h2 : sLe b c) : sLe a c := by
  rcases h1 with rfl | rfl
  · exact .inl rfl
  · exact h2

theorem sLe_join_left (a b : Shape) : sLe a (sJoin a b) := by
  cases a
  · exact .inl rfl
  · exact .inr rfl

theorem sLe_join_right (a b : Shape) (h : sCompat a b = true) : sLe b (sJoin a b) := by
  cases a with
  | none => exact .inr rfl
  | some m =>
    cases b with
    | none => exact .inl rfl
    | some n =>
      simp only [sCompat, decide_eq_true_eq] at h
      subst h
      exact .inr rfl

/-- Combination step for `evalSh_update`: both updated operand shapes stay
compatible and their join is the expected one. -/
theorem shape_step (sa sb S : Shape) (hcomp : sCompat sa sb = true)
    (hlea : sLe sa S) (hleb : sLe sb S) (p q : Prop) [Decidable p] [Decidable q] :
    sCompat (if p then sJoin sa S else sa) (if q then sJoin sb S else sb) = true ∧
      sJoin (if p then sJoin sa S else sa) (if q then sJoin sb S else sb) =
        (if p ∨ q then sJoin (sJoin sa sb) S else sJoin sa sb) := by
  by_cases hp : p <;> by_cases hq : q <;> cases S <;>
    rcases hlea with rfl | rfl <;> rcases hleb with rfl | rfl <;>
    simp_all [sJoin, sCompat]

/-- Re-binding one name to a value whose shape refines `S` preserves
success of the shape evaluation: all array shapes met in a successful
evaluation agree, so overwriting `y` with the result value cannot
introduce a broadcast failure. -/
theorem evalSh_update (k : String) (S : Shape) (σ : SEnv) (e : Expr) (s : Shape)
    (h : evalSh σ e = .ok s) (hle : sLe s S) :
    evalSh (shadow σ k S) e = .ok (if k ∈ varsE e then sJoin s S else s) := by
  induction e generalizing s with
  | num q =>
    simp only [evalSh, Except.ok.injEq] at h
    subst h
    simp [evalSh, varsE]
  | var x =>
    simp only [evalSh] at h
    cases hx : σ x with
    | none => rw [hx] at h; simp at h
    | some sx =>
      rw [hx] at h
      simp at h
      subst h
      by_cases hkx : k = x
      · subst hkx
        have hS : sJoin sx S = S := by
          rcases hle with h1 | h1
          · rw [h1]
            rfl
          · rw [h1]
            cases S <;> rfl
        simp [evalSh, shadow, varsE, hS]
      · simp [evalSh, shadow, varsE, hkx, hx]
  | neg e ih =>
    simp only [evalSh] at h
    simpa [evalSh, varsE] using ih s h hle
  | bin op a b iha ihb =>
    simp only [evalSh] at h
    cases ha : evalSh σ a with
    | error ea => rw [ha] at h; simp [bindErr] at h
    | ok sa =>
      cases hb : evalSh σ b with
      | error eb => rw [ha, hb] at h; simp [bindOk, bindErr] at h
      | ok sb =>
        rw [ha, hb] at h
        simp only [bindOk] at h
        by_cases hcomp : sCompat sa sb = true
        · rw [if_pos hcomp] at h
          simp only [Except.ok.injEq] at h
          subst h
          have hlea : sLe sa S := sLe_trans (sLe_join_left sa sb) hle
          have hleb : sLe sb S := sLe_trans (sLe_join_right sa sb hcomp) hle
          have Ha := iha sa ha hlea
          have Hb := ihb sb hb hleb
          have hstep := shape_step sa sb S hcomp hlea hleb (k ∈ varsE a) (k ∈ varsE b)
          simp only [evalSh, Ha, Hb, bindOk, if_pos hstep.1, hstep.2, varsE,
            List.mem_append]
        · rw [if_neg hcomp] at h
          simp at h

theorem envOf_gset (g : GEnv) (t : Table) (k : String) (v : Val) :
    envOf (gset g k v) t = fun x => if k = x then some v else envOf g t x := by
  funext x
  by_cases h : k = x <;> simp [envOf, gset, lookupS, h]

theorem envSh_shadow (env : Env) (k : String) (v : Val) :
    envSh (fun x => if k = x then some v else env x) = shadow (envSh env) k (shOf v) := by
  funext x
  by_cases h : k = x <;> simp [envSh, shadow, h]

/-- C9 amended: resolving the same expression against the same table twice
in direct succession yields the identical outcome, although the first
resolution may have written the module-global `y`: the lookup rebinds every
symbol on every call, and overwriting `y` with the previous result cannot
change a success into a failure (shapes agree) nor affect a failure (the
globals are then unchanged). -/
theorem c9_idempotent (e : String) (t : Table) (g : GEnv) :
    (gety e t ((gety e t g).2)).1 = (gety e t g).1 := by
  cases hl : lookupS t e with
  | some c =>
    have h1 : gety e t g = (.ok c, g) := by unfold gety; rw [hl]
    simp [h1]
  | none =>
    cases hp : parseExpr e with
    | error pe =>
      have h1 : gety e t g = (.error pe, g) := by unfold gety; simp [hl, hp]
      simp [h1]
    | ok ast =>
      cases he : evalE (envOf g t) ast with
      | error ee =>
        have h1 : gety e t g = (.error ee, g) := by unfold gety; simp [hl, hp, he]
        simp [h1]
      | ok v =>
        have h1 : gety e t g = (.error (.unboundLocal yName), gset g yName v) := by
          unfold gety
          simp [hl, hp, he]
        have hsh : evalSh (envSh (envOf g t)) ast = .ok (shOf v) :=
          evalE_shape (envOf g t) ast v he
        have hup := evalSh_update yName (shOf v) (envSh (envOf g t)) ast (shOf v) hsh
          (sLe_refl (shOf v))
        have henv : envSh (envOf (gset g yName v) t) =
            shadow (envSh (envOf g t)) yName (shOf v) := by
          rw [envOf_gset]
          exact envSh_shadow (envOf g t) yName v
        rw [← henv] at hup
        obtain ⟨v2, hv2, _⟩ := evalSh_eval (envOf (gset g yName v) t) ast _ hup
        have h2 : gety e t (gset g yName v) =
            (.error (.unboundLocal yName), gset (gset g yName v) yName v2) := by
          unfold gety
          simp [hl, hp, hv2]
        rw [h1]
        simp [h2]

end PlotData
